import Mathlib

/-!
Verification of the multi-criteria decision engine (`RefereeEngine`,
`src/referee-engine.js`) of the repository "The Referee".

The JavaScript source is shallowly embedded: JS numbers become exact
rationals (`ℚ`), absent/`undefined` fields become `Option`, JS objects
become structures, and JS dictionaries become insertion-ordered
association lists.  The external scorer (`Math.random()*10` in
`evaluateCriterion`, a placeholder for a pluggable domain scorer) is
modelled by a parameter `rawOf : Opt → String → ℚ` supplying the raw
score of an option on a criterion.  Each object produced by
`evaluateOptions` is tagged with its input position `idx`, which models
JS reference identity of the freshly created result objects (used by the
`opt !== topOption` filter in `calculateConfidence`).
-/

namespace Referee

/-- An input option: a name, an optional `cost` field and an optional
`features` array (absent fields are `none`, like `undefined` in JS). -/
structure Opt where
  name : String
  cost : Option ℚ
  features : Option (List String)
deriving DecidableEq, Repr

/-- The per-criterion score record `{ raw, weighted, explanation }`. -/
structure CritScore where
  raw : ℚ
  weighted : ℚ
  explanation : String
deriving DecidableEq, Repr

/-- The `constraints` argument: `{ maxCost?, weights?, requiredFeatures? }`. -/
structure Constraints where
  maxCost : Option ℚ := none
  weights : Option (List (String × ℚ)) := none
  requiredFeatures : Option (List String) := none
deriving DecidableEq, Repr

/-- An evaluated option: the spread of the input option plus the derived
fields.  `idx` models the JS object identity of the record created for
the `idx`-th input option. -/
structure EvalOption where
  base : Opt
  scores : List (String × CritScore)
  totalScore : ℚ
  meetsConstraints : Bool
  idx : ℕ
deriving DecidableEq, Repr

/-- Association-list lookup, modelling `dict[key]` (`none` = `undefined`). -/
def getKey (m : List (String × CritScore)) (k : String) : Option CritScore :=
  (m.find? (fun p => p.1 = k)).map (fun p => p.2)

/-- Association-list update, modelling `dict[key] = v`: overwrites an
existing key in place, otherwise appends (JS string-keyed objects keep
insertion order, and overwriting keeps the original position). -/
def setKey (m : List (String × CritScore)) (k : String) (v : CritScore) :
    List (String × CritScore) :=
  if m.any (fun p => p.1 = k) then
    m.map (fun p => if p.1 = k then (k, v) else p)
  else m ++ [(k, v)]

/-- JS `a || b` on an optional number: `undefined` and `0` are falsy. -/
def jsOrQ (a : Option ℚ) (b : ℚ) : ℚ :=
  match a with
  | none => b
  | some x => if x = 0 then b else x

/-- The constructor field `this.defaultWeights`. -/
def defaultWeights : List (String × ℚ) :=
  [("performance", 3/10), ("cost", 1/4), ("ease_of_use", 1/5),
   ("scalability", 3/20), ("community_support", 1/10)]

/-- Lookup in a JS weights dictionary. -/
def lookupW (m : List (String × ℚ)) (k : String) : Option ℚ :=
  (m.find? (fun p => p.1 = k)).map (fun p => p.2)

/-- The weight chain `constraints.weights?.[criterion] || this.defaultWeights[criterion] || 0.1`. -/
def weightFor (constraints : Constraints) (criterion : String) : ℚ :=
  jsOrQ (constraints.weights.bind (fun w => lookupW w criterion))
    (jsOrQ (lookupW defaultWeights criterion) (1/10))

/-- JS `Number.prototype.toFixed(d)` on an exact rational: round to `d`
decimal digits, half away from zero, and render with a decimal point. -/
def toFixed (d : ℕ) (q : ℚ) : String :=
  let scaled : ℚ := q * (10 : ℚ) ^ d
  let n : ℤ := if scaled ≥ 0 then ⌊scaled + 1/2⌋ else -⌊(-scaled) + 1/2⌋
  let sign := if n < 0 then "-" else ""
  let a := n.natAbs
  let ip := a / 10 ^ d
  let fp := a % 10 ^ d
  if d = 0 then sign ++ toString ip
  else
    let fs := toString fp
    let pad := String.mk (List.replicate (d - fs.length) '0')
    sign ++ toString ip ++ "." ++ pad ++ fs

/-- The source's `generateCriterionExplanation(option, criterion, score)`. -/
def generateCriterionExplanation (criterion : String) (score : ℚ) : String :=
  if criterion = "performance" then
    if score > 7 then "Excellent response times and throughput"
    else if score > 5 then "Good performance for most use cases"
    else "May have performance limitations"
  else if criterion = "cost" then
    if score > 7 then "Very cost-effective solution"
    else if score > 5 then "Reasonable pricing for features offered"
    else "Higher cost may impact budget"
  else if criterion = "ease_of_use" then
    if score > 7 then "Intuitive and well-documented"
    else if score > 5 then "Moderate learning curve"
    else "Complex setup and configuration"
  else if criterion = "scalability" then
    if score > 7 then "Scales seamlessly with growth"
    else if score > 5 then "Handles moderate scale well"
    else "Limited scalability options"
  else "Score: " ++ toFixed 1 score ++ "/10"

/-- The source's `evaluateCriterion(option, criterion, constraints)`, with the
`Math.random() * 10` base score supplied by the scorer oracle `rawOf`. -/
def evaluateCriterion (rawOf : Opt → String → ℚ) (option : Opt)
    (criterion : String) (constraints : Constraints) : CritScore :=
  let baseScore := rawOf option criterion
  let weight := weightFor constraints criterion
  { raw := baseScore
    weighted := baseScore * weight
    explanation := generateCriterionExplanation criterion baseScore }

/-- The source's `checkConstraints(option, constraints)`.  Note the JS truthiness
test `constraints.maxCost && ...`: a `maxCost` of `0` is falsy and
disables the cost check. -/
def checkConstraints (option : Opt) (constraints : Constraints) : Bool :=
  let costFail : Bool :=
    match constraints.maxCost with
    | none => false
    | some m =>
      decide (m ≠ 0) &&
        (match option.cost with
         | none => false
         | some c => decide (c > m))
  if costFail then false
  else
    match constraints.requiredFeatures with
    | some req => req.all (fun feature =>
        match option.features with
        | some fs => fs.contains feature
        | none => false)
    | none => true

/-- One iteration of the `for (const criterion of criteria)` loop in
`evaluateOptions`: store the criterion's score and add its `weighted`
value to the running total. -/
def evalStep (rawOf : Opt → String → ℚ) (option : Opt)
    (constraints : Constraints) (acc : List (String × CritScore) × ℚ)
    (criterion : String) : List (String × CritScore) × ℚ :=
  let score := evaluateCriterion rawOf option criterion constraints
  (setKey acc.1 criterion score, acc.2 + score.weighted)

/-- The per-option body of `evaluateOptions`: builds the `scores`
dictionary and accumulates `totalScore` over `criteria` in order. -/
def evaluateOption (rawOf : Opt → String → ℚ) (option : Opt)
    (criteria : List String) (constraints : Constraints) (idx : ℕ) :
    EvalOption :=
  let r := criteria.foldl (evalStep rawOf option constraints) ([], 0)
  { base := option
    scores := r.1
    totalScore := r.2
    meetsConstraints := checkConstraints option constraints
    idx := idx }

/-- The source's `evaluateOptions(options, criteria, constraints)`: one fresh
evaluated record per input option, in input order. -/
def evaluateOptions (rawOf : Opt → String → ℚ) (options : List Opt)
    (criteria : List String) (constraints : Constraints) :
    List EvalOption :=
  options.enum.map (fun p =>
    evaluateOption rawOf p.2 criteria constraints p.1)

/-- The `recommendation` record.  The JS object has `alternatives` only
in the no-valid-options branch and `confidence` only in the normal
branch; the absent field is `none`/`[]` here. -/
structure Recommendation where
  choice : Option EvalOption
  reason : String
  alternatives : List EvalOption
  confidence : Option ℚ
deriving DecidableEq, Repr

/-- The source's `generateRecommendationReason(topOption, allOptions)`. -/
def generateRecommendationReason (topOption : EvalOption) : String :=
  let strengths :=
    (topOption.scores.filter (fun p => p.2.raw > 7)).map (fun p => p.1)
  "Best overall choice due to strong " ++ String.intercalate ", " strengths
    ++ " with total score of " ++ toFixed 2 topOption.totalScore

/-- The reducer `(best, current) => current.totalScore > best.totalScore
? current : best` of `generateRecommendation` / `calculateConfidence`. -/
def maxStep (best current : EvalOption) : EvalOption :=
  if current.totalScore > best.totalScore then current else best

/-- The source's `calculateConfidence(topOption, allOptions)`.  The filter
`opt !== topOption` is JS reference inequality, modelled through `idx`;
the `[] => 0` branch models the `TypeError` JS would raise reducing an
empty array, unreachable when `topOption` occurs once in `allOptions`. -/
def calculateConfidence (topOption : EvalOption)
    (allOptions : List EvalOption) : ℚ :=
  if allOptions.length < 2 then 1
  else
    match allOptions.filter (fun opt => opt.idx ≠ topOption.idx) with
    | [] => 0
    | o :: os =>
      let secondBest := os.foldl maxStep o
      let scoreDiff := topOption.totalScore - secondBest.totalScore
      min (1/2 + scoreDiff / 10) 1

/-- The source's `generateRecommendation(evaluatedOptions, constraints)`. -/
def generateRecommendation (evaluatedOptions : List EvalOption) :
    Recommendation :=
  let validOptions := evaluatedOptions.filter (fun opt => opt.meetsConstraints)
  match validOptions with
  | [] =>
    { choice := none
      reason := "No options meet the specified constraints"
      alternatives := evaluatedOptions.take 2
      confidence := none }
  | v :: vs =>
    let topOption := vs.foldl maxStep v
    { choice := some topOption
      reason := generateRecommendationReason topOption
      alternatives := []
      confidence := some (calculateConfidence topOption (v :: vs)) }

/-- The pairwise comparison record of `compareTwo`. -/
structure Tradeoff where
  hasTradeoff : Bool
  optionA : String
  optionB : String
  aStrengths : List String
  bStrengths : List String
  summary : String
deriving DecidableEq, Repr

/-- The read `optionX.scores[criterion].raw` performed by `compareTwo`.  A missing
key would be a JS `TypeError`; the `0` default is never consulted for
options evaluated over a common criteria list. -/
def rawAt (o : EvalOption) (criterion : String) : ℚ :=
  ((getKey o.scores criterion).map CritScore.raw).getD 0

/-- One iteration of the criterion loop in `compareTwo`: push the
criterion onto the leading side's strengths list when the raw-score
difference exceeds 1 in absolute value. -/
def diffStep (optionA optionB : EvalOption) (acc : List String × List String)
    (criterion : String) : List String × List String :=
  let aDiff := rawAt optionA criterion - rawAt optionB criterion
  if |aDiff| > 1 then
    if aDiff > 0 then (acc.1 ++ [criterion], acc.2)
    else (acc.1, acc.2 ++ [criterion])
  else acc

/-- The source's `compareTwo(optionA, optionB)`: iterates `Object.keys(optionA.scores)`
in insertion order, collecting criteria whose raw difference exceeds 1
in absolute value into the leading side's strengths list. -/
def compareTwo (optionA optionB : EvalOption) : Tradeoff :=
  let r := (optionA.scores.map (fun p => p.1)).foldl
    (diffStep optionA optionB) ([], [])
  let aStrengths := r.1
  let bStrengths := r.2
  { hasTradeoff := aStrengths.length > 0 && bStrengths.length > 0
    optionA := optionA.base.name
    optionB := optionB.base.name
    aStrengths := aStrengths
    bStrengths := bStrengths
    summary := optionA.base.name ++ " excels in "
      ++ String.intercalate ", " aStrengths ++ " while "
      ++ optionB.base.name ++ " is better for "
      ++ String.intercalate ", " bStrengths }

/-- The source's `analyzeTradeoffs(evaluatedOptions)`: every unordered pair `(i, j)`
with `i < j`, in order, keeping pairs whose comparison `hasTradeoff`. -/
def analyzeTradeoffs (evaluatedOptions : List EvalOption) : List Tradeoff :=
  evaluatedOptions.enum.flatMap (fun p =>
    ((evaluatedOptions.drop (p.1 + 1)).map (fun other =>
      compareTwo p.2 other)).filter (fun c => c.hasTradeoff))

/-- One entry of `summary.topChoices` (`score` is the `toFixed(2)` string). -/
structure TopChoice where
  name : String
  score : String
  keyStrength : String
deriving DecidableEq, Repr

/-- The `summary` record of the comparison result. -/
structure Summary where
  totalOptions : ℕ
  validOptions : ℕ
  topChoices : List TopChoice
  keyInsight : String
deriving DecidableEq, Repr

/-- The source's `getKeyStrength(option)`: first criterion attaining the maximum raw
score, starting from the sentinel `{ criterion: '', score: 0 }`. -/
def getKeyStrength (option : EvalOption) : String :=
  (option.scores.foldl
    (fun (best : String × ℚ) p =>
      if p.2.raw > best.2 then (p.1, p.2.raw) else best)
    ("", 0)).1

/-- The source's `generateKeyInsight(evaluatedOptions, constraints)`.  On an empty
list the JS code reads `evaluatedOptions[0].scores`, i.e. a property of
`undefined`, and throws a `TypeError`; that exception is modelled by
`none`. -/
def generateKeyInsight (evaluatedOptions : List EvalOption)
    (_constraints : Constraints) : Option String :=
  match evaluatedOptions with
  | [] => none
  | first :: _ =>
    let criteria := first.scores.map (fun p => p.1)
    let avgScores := criteria.map (fun criterion =>
      (criterion,
        (evaluatedOptions.foldl (fun sum opt => sum + rawAt opt criterion) 0)
          / (evaluatedOptions.length : ℚ)))
    let strongestArea := avgScores.foldl
      (fun (best : String × ℚ) p => if p.2 > best.2 then p else best)
      ("", 0)
    some ("Overall, options perform best in " ++ strongestArea.1
      ++ " (avg: " ++ toFixed 1 strongestArea.2 ++ "/10)")

/-- The source's `generateSummary(evaluatedOptions, constraints)`: valid options
sorted descending by `totalScore` (JS `Array.prototype.sort` is stable),
truncated to 3.  A `none` result models the `TypeError` thrown by
`generateKeyInsight` on an empty list, which aborts the whole summary. -/
def generateSummary (evaluatedOptions : List EvalOption)
    (constraints : Constraints) : Option Summary :=
  let topThree :=
    ((evaluatedOptions.filter (fun opt => opt.meetsConstraints)).mergeSort
      (fun a b => b.totalScore ≤ a.totalScore)).take 3
  (generateKeyInsight evaluatedOptions constraints).map (fun ki =>
    { totalOptions := evaluatedOptions.length
      validOptions :=
        (evaluatedOptions.filter (fun opt => opt.meetsConstraints)).length
      topChoices := topThree.map (fun opt =>
        { name := opt.base.name
          score := toFixed 2 opt.totalScore
          keyStrength := getKeyStrength opt })
      keyInsight := ki })

/-- The value returned by `compare`.  `summary = none` models the
exception propagated out of `generateSummary` on an empty option list. -/
structure ComparisonResult where
  comparison : List EvalOption
  recommendation : Recommendation
  tradeoffs : List Tradeoff
  summary : Option Summary
deriving DecidableEq, Repr

/-- The source's `compare(options, criteria, constraints)`, the engine entry point,
parameterized by the scorer oracle `rawOf`. -/
def compare (rawOf : Opt → String → ℚ) (options : List Opt)
    (criteria : List String) (constraints : Constraints) :
    ComparisonResult :=
  let evaluatedOptions := evaluateOptions rawOf options criteria constraints
  { comparison := evaluatedOptions
    recommendation := generateRecommendation evaluatedOptions
    tradeoffs := analyzeTradeoffs evaluatedOptions
    summary := generateSummary evaluatedOptions constraints }

/-- The number of options accepted by `checkConstraints`, i.e. the size
of the valid set a given constraints object induces. -/
def validCount (options : List Opt) (constraints : Constraints) : ℕ :=
  (options.filter (fun option => checkConstraints option constraints)).length

/-! Concrete sample data used to exercise the theorems below. -/

/-- A deterministic stand-in for the domain scorer. -/
def rawOf0 : Opt → String → ℚ := fun o c =>
  if o.name = "A" then (if c = "performance" then 8 else 3)
  else if o.name = "B" then (if c = "performance" then 6 else 7)
  else 5

/-- Sample option A. -/
def optA : Opt := ⟨"A", some 100, some ["tls"]⟩

/-- Sample option B. -/
def optB : Opt := ⟨"B", some 50, none⟩

/-- Sample criteria list. -/
def crits0 : List String := ["performance", "cost"]

/-- Sample empty constraints. -/
def cs0 : Constraints := ⟨none, none, none⟩

/-- Sample constraints with a `maxCost` both sample options exceed. -/
def cs1 : Constraints := ⟨some 10, none, none⟩

section RatKernel

attribute [local semireducible] Rat.add Rat.mul Rat.inv Rat.sub

/-! ### Association-list lemmas -/

theorem getKey_map_overwrite_ne (k : String) (v : CritScore) (c : String)
    (hck : c ≠ k) (m : List (String × CritScore)) :
    getKey (m.map (fun p => if p.1 = k then (k, v) else p)) c = getKey m c := by
  induction m with
  | nil => simp [getKey]
  | cons p ps ih =>
    simp only [List.map_cons]
    by_cases hp : p.1 = k
    · have hpc : ¬ ((p.1 = c) = True) := by simp [hp, Ne.symm hck]
      have h1 : (if p.1 = k then (k, v) else p) = (k, v) := if_pos hp
      rw [h1]
      unfold getKey
      rw [List.find?_cons_of_neg _ (by simp [Ne.symm hck]),
          List.find?_cons_of_neg _ (by simp [hp, Ne.symm hck])]
      exact ih
    · have h1 : (if p.1 = k then (k, v) else p) = p := if_neg hp
      rw [h1]
      by_cases hpc : p.1 = c
      · unfold getKey
        rw [List.find?_cons_of_pos _ (by simp [hpc]),
            List.find?_cons_of_pos _ (by simp [hpc])]
      · unfold getKey
        rw [List.find?_cons_of_neg _ (by simp [hpc]),
            List.find?_cons_of_neg _ (by simp [hpc])]
        exact ih

theorem getKey_map_overwrite (k : String) (v : CritScore) (c : String) :
    ∀ (m : List (String × CritScore)),
      m.any (fun p => p.1 = k) = true →
      getKey (m.map (fun p => if p.1 = k then (k, v) else p)) c
        = if c = k then some v else getKey m c := by
  intro m
  induction m with
  | nil => simp
  | cons p ps ih =>
    intro hk
    by_cases hp : p.1 = k
    · by_cases hc : c = k
      · subst hc
        simp [getKey, hp]
      · rw [if_neg hc]
        have := getKey_map_overwrite_ne k v c hc (p :: ps)
        simpa using this
    · have hk' : ps.any (fun p => p.1 = k) = true := by
        simp [List.any_cons, hp] at hk
        simpa using hk
      by_cases hpc : p.1 = c
      · have hc : ¬ (c = k) := fun h => hp (hpc.trans h)
        simp [getKey, hp, hpc, hc]
      · have h1 := ih hk'
        simp only [getKey, List.map_cons, List.find?_cons] at *
        simp [hp, hpc] at h1 ⊢
        exact h1

theorem getKey_append_new (k : String) (v : CritScore) (c : String)
    (m : List (String × CritScore))
    (hk : m.any (fun p => p.1 = k) = false) :
    getKey (m ++ [(k, v)]) c = if c = k then some v else getKey m c := by
  unfold getKey
  rw [List.find?_append]
  by_cases hc : c = k
  · subst hc
    have hnone : m.find? (fun p => decide (p.1 = c)) = none := by
      rw [List.find?_eq_none]
      intro x hx
      have hall := List.any_eq_false.mp hk x hx
      simpa using hall
    rw [hnone]
    simp
  · have h2 : List.find? (fun p => decide (p.1 = c)) [(k, v)] = none := by
      simp [Ne.symm hc]
    rw [h2, if_neg hc]
    cases m.find? (fun p => decide (p.1 = c)) <;> simp

theorem getKey_setKey (m : List (String × CritScore)) (k : String)
    (v : CritScore) (c : String) :
    getKey (setKey m k v) c = if c = k then some v else getKey m c := by
  unfold setKey
  by_cases hk : m.any (fun p => p.1 = k) = true
  · rw [if_pos hk]
    exact getKey_map_overwrite k v c m hk
  · rw [if_neg hk]
    exact getKey_append_new k v c m (by rw [Bool.eq_false_iff]; exact hk)

/-! ### The scores/total fold of `evaluateOptions` -/

theorem foldl_evalStep_snd (rawOf : Opt → String → ℚ) (option : Opt)
    (constraints : Constraints) :
    ∀ (criteria : List String) (m : List (String × CritScore)) (t : ℚ),
      (criteria.foldl (evalStep rawOf option constraints) (m, t)).2
        = t + (criteria.map
            (fun c => (evaluateCriterion rawOf option c constraints).weighted)).sum := by
  intro criteria
  induction criteria with
  | nil => intro m t; simp
  | cons c cs ih =>
    intro m t
    simp only [List.foldl_cons, List.map_cons, List.sum_cons]
    rw [show evalStep rawOf option constraints (m, t) c
        = (setKey m c (evaluateCriterion rawOf option c constraints),
           t + (evaluateCriterion rawOf option c constraints).weighted) from rfl]
    rw [ih]
    ring

theorem foldl_evalStep_getKey (rawOf : Opt → String → ℚ) (option : Opt)
    (constraints : Constraints) :
    ∀ (criteria : List String) (m : List (String × CritScore)) (t : ℚ)
      (c : String),
      getKey (criteria.foldl (evalStep rawOf option constraints) (m, t)).1 c
        = if c ∈ criteria
          then some (evaluateCriterion rawOf option c constraints)
          else getKey m c := by
  intro criteria
  induction criteria with
  | nil => intro m t c; simp
  | cons c' cs ih =>
    intro m t c
    simp only [List.foldl_cons]
    rw [show evalStep rawOf option constraints (m, t) c'
        = (setKey m c' (evaluateCriterion rawOf option c' constraints),
           t + (evaluateCriterion rawOf option c' constraints).weighted) from rfl]
    rw [ih]
    by_cases hcs : c ∈ cs
    · simp [hcs]
    · rw [if_neg hcs, getKey_setKey]
      by_cases hc : c = c'
      · subst hc; simp
      · simp [hc, hcs]

theorem foldl_add_eq_sum (f : String → ℚ) :
    ∀ (l : List String) (t : ℚ),
      l.foldl (fun a c => a + f c) t = t + (l.map f).sum := by
  intro l
  induction l with
  | nil => intro t; simp
  | cons c cs ih =>
    intro t
    simp only [List.foldl_cons, List.map_cons, List.sum_cons]
    rw [ih]
    ring

/-- C1: every option evaluated by `evaluateOptions` has a `scores` entry
for each requested criterion, and its `totalScore` is exactly the sum of
the `weighted` values `scores[c].weighted`, accumulated over the
criteria list in order. -/
theorem totalScore_eq_ordered_sum (rawOf : Opt → String → ℚ)
    (options : List Opt) (criteria : List String)
    (constraints : Constraints) :
    ∀ e ∈ evaluateOptions rawOf options criteria constraints,
      (∀ c ∈ criteria,
        getKey e.scores c = some (evaluateCriterion rawOf e.base c constraints)) ∧
      e.totalScore
        = criteria.foldl
            (fun acc c =>
              acc + ((getKey e.scores c).map CritScore.weighted).getD 0) 0 := by
  intro e he
  simp only [evaluateOptions, List.mem_map] at he
  obtain ⟨p, hp, rfl⟩ := he
  have hbase : (evaluateOption rawOf p.2 criteria constraints p.1).base = p.2 := rfl
  have hscores : (evaluateOption rawOf p.2 criteria constraints p.1).scores
      = (criteria.foldl (evalStep rawOf p.2 constraints) ([], 0)).1 := rfl
  have htotal : (evaluateOption rawOf p.2 criteria constraints p.1).totalScore
      = (criteria.foldl (evalStep rawOf p.2 constraints) ([], 0)).2 := rfl
  have hget : ∀ c ∈ criteria,
      getKey (evaluateOption rawOf p.2 criteria constraints p.1).scores c
        = some (evaluateCriterion rawOf p.2 c constraints) := by
    intro c hc
    rw [hscores, foldl_evalStep_getKey, if_pos hc]
  refine ⟨by simpa [hbase] using hget, ?_⟩
  rw [htotal, foldl_evalStep_snd, foldl_add_eq_sum]
  simp only [zero_add]
  congr 1
  apply List.map_congr_left
  intro c hc
  rw [hget c hc]
  rfl

/-- Witness for C1 at the sample inputs: the evaluated record of option
B carries a score for each sample criterion and its total is the ordered
sum of the weighted scores. -/
theorem totalScore_eq_ordered_sum_witness :
    (∀ c ∈ crits0,
      getKey (evaluateOption rawOf0 optB crits0 cs0 1).scores c
        = some (evaluateCriterion rawOf0
            (evaluateOption rawOf0 optB crits0 cs0 1).base c cs0)) ∧
    (evaluateOption rawOf0 optB crits0 cs0 1).totalScore
      = crits0.foldl
          (fun acc c =>
            acc + ((getKey (evaluateOption rawOf0 optB crits0 cs0 1).scores c).map
              CritScore.weighted).getD 0) 0 :=
  totalScore_eq_ordered_sum rawOf0 [optA, optB] crits0 cs0
    (evaluateOption rawOf0 optB crits0 cs0 1) (by decide)

/-! ### The argmax fold of `generateRecommendation` -/

theorem maxStep_left_le (v c : EvalOption) :
    v.totalScore ≤ (maxStep v c).totalScore := by
  unfold maxStep
  by_cases h : c.totalScore > v.totalScore
  · rw [if_pos h]; exact le_of_lt h
  · rw [if_neg h]

theorem maxStep_right_le (v c : EvalOption) :
    c.totalScore ≤ (maxStep v c).totalScore := by
  unfold maxStep
  by_cases h : c.totalScore > v.totalScore
  · rw [if_pos h]
  · rw [if_neg h]; exact le_of_not_lt h

theorem foldl_maxStep_le :
    ∀ (vs : List EvalOption) (v : EvalOption),
      ∀ o ∈ v :: vs, o.totalScore ≤ (vs.foldl maxStep v).totalScore := by
  intro vs
  induction vs with
  | nil =>
    intro v o ho
    rw [List.mem_singleton] at ho
    subst ho
    simp
  | cons c cs ih =>
    intro v o ho
    simp only [List.foldl_cons]
    rcases List.mem_cons.mp ho with rfl | ho'
    · exact le_trans (maxStep_left_le o c)
        (ih (maxStep o c) (maxStep o c) (List.mem_cons_self _ _))
    · rcases List.mem_cons.mp ho' with rfl | ho''
      · exact le_trans (maxStep_right_le v o)
          (ih (maxStep v o) (maxStep v o) (List.mem_cons_self _ _))
      · exact ih (maxStep v c) o (List.mem_cons_of_mem _ ho'')

theorem foldl_maxStep_split :
    ∀ (vs : List EvalOption) (v : EvalOption),
      ∃ l₁ l₂, v :: vs = l₁ ++ (vs.foldl maxStep v) :: l₂ ∧
        (∀ o ∈ l₁, o.totalScore < (vs.foldl maxStep v).totalScore) ∧
        (∀ o ∈ l₂, o.totalScore ≤ (vs.foldl maxStep v).totalScore) := by
  intro vs
  induction vs with
  | nil =>
    intro v
    exact ⟨[], [], rfl, by simp, by simp⟩
  | cons c cs ih =>
    intro v
    simp only [List.foldl_cons]
    by_cases h : c.totalScore > v.totalScore
    · have hm : maxStep v c = c := by unfold maxStep; rw [if_pos h]
      rw [hm]
      obtain ⟨l₁, l₂, heq, hlt, hle⟩ := ih c
      refine ⟨v :: l₁, l₂, ?_, ?_, hle⟩
      · rw [List.cons_append, ← heq]
      · intro o ho
        rcases List.mem_cons.mp ho with rfl | ho'
        · exact lt_of_lt_of_le h
            (foldl_maxStep_le cs c c (List.mem_cons_self _ _))
        · exact hlt o ho'
    · have hm : maxStep v c = v := by unfold maxStep; rw [if_neg h]
      rw [hm]
      obtain ⟨l₁, l₂, heq, hlt, hle⟩ := ih v
      cases l₁ with
      | nil =>
        rw [List.nil_append] at heq
        have h1 : v = cs.foldl maxStep v := (List.cons.injEq _ _ _ _ ▸ heq).1
        have h2 : cs = l₂ := (List.cons.injEq _ _ _ _ ▸ heq).2
        refine ⟨[], c :: cs, ?_, by simp, ?_⟩
        · rw [List.nil_append, ← h1]
        · intro o ho
          rcases List.mem_cons.mp ho with rfl | ho'
          · rw [← h1]; exact le_of_not_lt h
          · exact hle o (h2 ▸ ho')
      | cons x l₁' =>
        rw [List.cons_append] at heq
        have h1 : v = x := (List.cons.injEq _ _ _ _ ▸ heq).1
        have h2 : cs = l₁' ++ (cs.foldl maxStep v) :: l₂ :=
          (List.cons.injEq _ _ _ _ ▸ heq).2
        have hvr : v.totalScore < (cs.foldl maxStep v).totalScore := by
          have := hlt x (List.mem_cons_self _ _)
          rw [← h1] at this
          exact this
        refine ⟨v :: c :: l₁', l₂, ?_, ?_, hle⟩
        · rw [List.cons_append, List.cons_append, ← h2]
        · intro o ho
          rcases List.mem_cons.mp ho with rfl | ho'
          · exact hvr
          · rcases List.mem_cons.mp ho' with rfl | ho''
            · exact lt_of_le_of_lt (le_of_not_lt h) hvr
            · exact hlt o (h1 ▸ List.mem_cons_of_mem _ ho'')

theorem foldl_maxStep_mem (vs : List EvalOption) (v : EvalOption) :
    vs.foldl maxStep v ∈ v :: vs := by
  obtain ⟨l₁, l₂, heq, -, -⟩ := foldl_maxStep_split vs v
  rw [heq]
  exact List.mem_append.mpr (Or.inr (List.mem_cons_self _ _))

/-- C3: when some option meets the constraints, the recommended choice
is a valid option of maximum `totalScore`, and every valid option
occurring before it (in input order) has a strictly smaller total, so
the first of any tied group wins. -/
theorem choice_is_first_max (evaluated : List EvalOption)
    (h : ∃ o ∈ evaluated, o.meetsConstraints = true) :
    ∃ top, (generateRecommendation evaluated).choice = some top ∧
      (∀ o ∈ evaluated.filter (fun o => o.meetsConstraints),
        o.totalScore ≤ top.totalScore) ∧
      ∃ l₁ l₂,
        evaluated.filter (fun o => o.meetsConstraints) = l₁ ++ top :: l₂ ∧
        (∀ o ∈ l₁, o.totalScore < top.totalScore) ∧
        (∀ o ∈ l₂, o.totalScore ≤ top.totalScore) := by
  cases hv : evaluated.filter (fun o => o.meetsConstraints) with
  | nil =>
    obtain ⟨o, ho, hm⟩ := h
    have hmem : o ∈ evaluated.filter (fun o => o.meetsConstraints) :=
      List.mem_filter.mpr ⟨ho, by simp [hm]⟩
    rw [hv] at hmem
    simp at hmem
  | cons v vs =>
    refine ⟨vs.foldl maxStep v, ?_, ?_, ?_⟩
    · simp only [generateRecommendation, hv]
    · exact foldl_maxStep_le vs v
    · obtain ⟨l₁, l₂, heq, hlt, hle⟩ := foldl_maxStep_split vs v
      exact ⟨l₁, l₂, heq, hlt, hle⟩

/-- Tied valid options used to exercise C3's tie-break. -/
def eX : EvalOption := ⟨⟨"X", none, none⟩, [], 5, true, 0⟩

/-- Second tied valid option for C3's tie-break. -/
def eY : EvalOption := ⟨⟨"Y", none, none⟩, [], 5, true, 1⟩

/-- Witness for C3: on two tied valid options the first is chosen, and
the decomposition produced by the theorem holds at that input. -/
theorem choice_is_first_max_witness :
    (generateRecommendation [eX, eY]).choice = some eX ∧
    (∃ top, (generateRecommendation [eX, eY]).choice = some top ∧
      (∀ o ∈ [eX, eY].filter (fun o => o.meetsConstraints),
        o.totalScore ≤ top.totalScore) ∧
      ∃ l₁ l₂,
        [eX, eY].filter (fun o => o.meetsConstraints) = l₁ ++ top :: l₂ ∧
        (∀ o ∈ l₁, o.totalScore < top.totalScore) ∧
        (∀ o ∈ l₂, o.totalScore ≤ top.totalScore)) :=
  ⟨by decide, choice_is_first_max [eX, eY] ⟨eX, by decide, by decide⟩⟩

/-- C2: `compare` returns every input option, in order, extended with
the derived fields, and a non-null recommended choice always satisfies
`meetsConstraints`. -/
theorem compare_keeps_all_options (rawOf : Opt → String → ℚ)
    (options : List Opt) (criteria : List String)
    (constraints : Constraints) :
    ((compare rawOf options criteria constraints).comparison.map
      (fun e => e.base) = options) ∧
    (∀ top,
      (compare rawOf options criteria constraints).recommendation.choice
          = some top →
        top.meetsConstraints = true) := by
  constructor
  · show (evaluateOptions rawOf options criteria constraints).map
      (fun e => e.base) = options
    unfold evaluateOptions
    rw [List.map_map]
    have : ((fun e : EvalOption => e.base) ∘
        (fun p : ℕ × Opt => evaluateOption rawOf p.2 criteria constraints p.1))
        = fun p : ℕ × Opt => p.2 := rfl
    rw [this]
    exact List.enum_map_snd options
  · intro top htop
    have hc : (generateRecommendation
        (evaluateOptions rawOf options criteria constraints)).choice
        = some top := htop
    cases hv : (evaluateOptions rawOf options criteria constraints).filter
        (fun o => o.meetsConstraints) with
    | nil =>
      simp only [generateRecommendation, hv] at hc
      exact absurd hc (by simp)
    | cons v vs =>
      simp only [generateRecommendation, hv, Option.some.injEq] at hc
      have hmem : vs.foldl maxStep v ∈ v :: vs := foldl_maxStep_mem vs v
      rw [← hv] at hmem
      have := (List.mem_filter.mp hmem).2
      rw [hc] at this
      simpa using this

/-- Witness for C2 at the sample inputs: both options come back in the
comparison list and the recommended choice (option B) is valid. -/
theorem compare_keeps_all_options_witness :
    ((compare rawOf0 [optA, optB] crits0 cs0).comparison.map
      (fun e => e.base) = [optA, optB]) ∧
    (evaluateOption rawOf0 optB crits0 cs0 1).meetsConstraints = true :=
  ⟨(compare_keeps_all_options rawOf0 [optA, optB] crits0 cs0).1,
    (compare_keeps_all_options rawOf0 [optA, optB] crits0 cs0).2
      (evaluateOption rawOf0 optB crits0 cs0 1) (by decide)⟩

/-- C5: when no evaluated option meets the constraints the recommender
still returns a record: null choice, the fixed reason string, and the
first two evaluated options as alternatives. -/
theorem no_valid_options_record (evaluated : List EvalOption)
    (h : ∀ o ∈ evaluated, o.meetsConstraints = false) :
    generateRecommendation evaluated =
      { choice := none
        reason := "No options meet the specified constraints"
        alternatives := evaluated.take 2
        confidence := none } ∧
    (2 ≤ evaluated.length →
      (generateRecommendation evaluated).alternatives.length = 2) := by
  have hv : evaluated.filter (fun o => o.meetsConstraints) = [] := by
    rw [List.filter_eq_nil_iff]
    intro o ho
    simp [h o ho]
  constructor
  · simp only [generateRecommendation, hv]
  · intro h2
    simp only [generateRecommendation, hv, List.length_take]
    omega

/-- Witness for C5: with `maxCost = 10` both sample options fail the
constraints; the recommendation is the null-choice record and the
alternatives list has exactly the 2 input options. -/
theorem no_valid_options_record_witness :
    (∀ o ∈ evaluateOptions rawOf0 [optA, optB] crits0 cs1,
      o.meetsConstraints = false) ∧
    generateRecommendation (evaluateOptions rawOf0 [optA, optB] crits0 cs1) =
      { choice := none
        reason := "No options meet the specified constraints"
        alternatives := (evaluateOptions rawOf0 [optA, optB] crits0 cs1).take 2
        confidence := none } ∧
    (generateRecommendation
      (evaluateOptions rawOf0 [optA, optB] crits0 cs1)).alternatives.length
      = 2 :=
  ⟨by decide,
    (no_valid_options_record _ (by decide)).1,
    (no_valid_options_record _ (by decide)).2 (by decide)⟩

/-- C10: a `maxCost` of `0` is falsy in JS, so `checkConstraints`
behaves exactly as if `maxCost` were absent — no cost predicate is
applied at all. -/
theorem maxCost_zero_is_no_constraint (option : Opt)
    (w : Option (List (String × ℚ))) (rf : Option (List String)) :
    checkConstraints option ⟨some 0, w, rf⟩
      = checkConstraints option ⟨none, w, rf⟩ := by
  unfold checkConstraints
  simp

/-- Counterexample to C8: with the single-criterion list
`["performance"]` and no caller weights, the weight actually used is the
`defaultWeights` table entry `0.3`, not `1/|criteria| = 1`. -/
theorem default_weight_not_reciprocal :
    weightFor cs0 "performance" = 3/10 ∧
    (3/10 : ℚ) ≠ 1 / (((["performance"] : List String).length : ℕ) : ℚ) := by
  constructor
  · decide
  · decide

/-- C8 as amended: for a criterion with no caller-supplied weight entry,
the weight is taken from the built-in `defaultWeights` table
(performance 0.3, cost 0.25, ease_of_use 0.2, scalability 0.15,
community_support 0.1), falling back to 0.1 for criteria not in the
table. -/
theorem default_weight_from_table (constraints : Constraints)
    (criterion : String)
    (h : constraints.weights.bind (fun w => lookupW w criterion) = none) :
    weightFor constraints criterion
      = jsOrQ (lookupW defaultWeights criterion) (1/10) := by
  unfold weightFor
  rw [h]
  rfl

/-- Witness for C8's amended claim: the sample constraints supply no
weights, and the weight used for "performance" is the table lookup. -/
theorem default_weight_from_table_witness :
    cs0.weights.bind (fun w => lookupW w "performance") = none ∧
    weightFor cs0 "performance"
      = jsOrQ (lookupW defaultWeights "performance") (1/10) :=
  ⟨by decide, default_weight_from_table cs0 "performance" (by decide)⟩

/-- Counterexample to C9: `maxCost = 0` is falsy, so it is *weaker* than
`maxCost = 50` although `0 ≤ 50`: an option of cost 100 passes under the
former and fails under the latter. -/
theorem maxCost_monotonicity_fails_at_zero :
    ((0 : ℚ) ≤ 50) ∧
    validCount [⟨"A", some 100, none⟩] ⟨some 0, none, none⟩ = 1 ∧
    validCount [⟨"A", some 100, none⟩] ⟨some 50, none, none⟩ = 0 ∧
    ¬(validCount [⟨"A", some 100, none⟩] ⟨some 0, none, none⟩
        ≤ validCount [⟨"A", some 100, none⟩] ⟨some 50, none, none⟩) := by
  refine ⟨by norm_num, by decide, by decide, by decide⟩

theorem checkConstraints_mono (o : Opt) (w : Option (List (String × ℚ)))
    (rf : Option (List String)) (m₁ m₂ : ℚ) (h12 : m₁ ≤ m₂) (h1 : m₁ ≠ 0)
    (hchk : checkConstraints o ⟨some m₁, w, rf⟩ = true) :
    checkConstraints o ⟨some m₂, w, rf⟩ = true := by
  unfold checkConstraints at hchk ⊢
  cases hc : o.cost with
  | none => simpa [hc] using hchk
  | some cval =>
    by_cases hgt : cval > m₂
    · exfalso
      have hgt1 : cval > m₁ := lt_of_le_of_lt h12 hgt
      simp [hc, h1, hgt1] at hchk
    · simp only [hc] at hchk ⊢
      by_cases hgt1 : cval > m₁
      · simp [h1, hgt1] at hchk
      · simp [hgt1] at hchk
        simp [hgt]
        exact hchk

/-- C9 as amended: tightening a *nonzero* `maxCost` never increases the
size of the valid set (a zero bound is falsy in JS and disables the cost
check, so it is excluded). -/
theorem maxCost_monotone (options : List Opt)
    (w : Option (List (String × ℚ))) (rf : Option (List String))
    (m₁ m₂ : ℚ) (h12 : m₁ ≤ m₂) (h1 : m₁ ≠ 0) :
    validCount options ⟨some m₁, w, rf⟩
      ≤ validCount options ⟨some m₂, w, rf⟩ := by
  unfold validCount
  rw [← List.countP_eq_length_filter, ← List.countP_eq_length_filter]
  apply List.countP_mono_left
  intro o _ hchk
  exact checkConstraints_mono o w rf m₁ m₂ h12 h1 hchk

/-- Witness for C9's amended claim at concrete bounds 30 ≤ 60. -/
theorem maxCost_monotone_witness :
    ((30 : ℚ) ≤ 60) ∧ ((30 : ℚ) ≠ 0) ∧
    validCount [optA, optB] ⟨some (30 : ℚ), none, none⟩
      ≤ validCount [optA, optB] ⟨some (60 : ℚ), none, none⟩ :=
  ⟨by norm_num, by norm_num,
    maxCost_monotone [optA, optB] none none 30 60 (by norm_num) (by norm_num)⟩

/-- Counterexample to C7: on the empty evaluated list `generateSummary`
does not return a zeroed summary — it fails (the model's `none` is the
JS `TypeError` raised by `generateKeyInsight` reading
`evaluatedOptions[0].scores`). -/
theorem generateSummary_empty_fails :
    generateSummary ([] : List EvalOption) cs0 = none ∧
    generateSummary ([] : List EvalOption) cs0
      ≠ some { totalOptions := 0, validOptions := 0, topChoices := [],
               keyInsight := "" } := by
  exact ⟨rfl, by decide⟩

/-- C7 as amended: for every constraints object, `generateSummary` on an
empty evaluated list propagates the `TypeError` of `generateKeyInsight`
(modelled as `none`) instead of returning an empty/zeroed summary. -/
theorem generateSummary_empty_errors (constraints : Constraints) :
    generateSummary [] constraints = none := rfl

/-! ### Confidence (C4) -/

theorem valid_sublist_idx_nodup (evaluated : List EvalOption)
    (hnd : (evaluated.map (fun e => e.idx)).Nodup) :
    (((evaluated.filter (fun o => o.meetsConstraints)).map
      (fun e => e.idx))).Nodup :=
  hnd.sublist ((List.filter_sublist evaluated).map (fun e => e.idx))

theorem confidence_spec (evaluated : List EvalOption) (top : EvalOption)
    (hnd : (evaluated.map (fun e => e.idx)).Nodup)
    (h : (generateRecommendation evaluated).choice = some top) :
    (∀ q, (generateRecommendation evaluated).confidence = some q →
      1/2 ≤ q ∧ q ≤ 1) ∧
    ((evaluated.filter (fun o => o.meetsConstraints)).length < 2 →
      (generateRecommendation evaluated).confidence = some 1) ∧
    (2 ≤ (evaluated.filter (fun o => o.meetsConstraints)).length →
      ∃ second ∈ (evaluated.filter (fun o => o.meetsConstraints)).filter
          (fun o => o.idx ≠ top.idx),
        (∀ o ∈ (evaluated.filter (fun o => o.meetsConstraints)).filter
            (fun o => o.idx ≠ top.idx),
          o.totalScore ≤ second.totalScore) ∧
        (generateRecommendation evaluated).confidence
          = some (min (1/2 + (top.totalScore - second.totalScore) / 10) 1)) := by
  cases hv : evaluated.filter (fun o => o.meetsConstraints) with
  | nil =>
    exfalso
    simp only [generateRecommendation, hv] at h
    exact absurd h (by simp)
  | cons v vs =>
    have htop : vs.foldl maxStep v = top := by
      simp only [generateRecommendation, hv, Option.some.injEq] at h
      exact h
    have hconf : (generateRecommendation evaluated).confidence
        = some (calculateConfidence top (v :: vs)) := by
      simp only [generateRecommendation, hv]
      rw [htop]
    have hqeq : ∀ q, (generateRecommendation evaluated).confidence = some q →
        q = calculateConfidence top (v :: vs) := by
      intro q hq
      rw [hconf, Option.some.injEq] at hq
      exact hq.symm
    have hmax : ∀ o ∈ v :: vs, o.totalScore ≤ top.totalScore := by
      rw [← htop]
      exact foldl_maxStep_le vs v
    have hvnodup : ((v :: vs).map (fun e => e.idx)).Nodup := by
      rw [← hv]
      exact valid_sublist_idx_nodup evaluated hnd
    by_cases hlen : (v :: vs).length < 2
    · have hc1 : calculateConfidence top (v :: vs) = 1 := by
        unfold calculateConfidence
        rw [if_pos hlen]
      refine ⟨?_, fun _ => by rw [hconf, hc1], fun h2 => absurd hlen (by omega)⟩
      intro q hq
      rw [hqeq q hq, hc1]
      norm_num
    · have h2 : 2 ≤ (v :: vs).length := le_of_not_lt hlen
      have hex : ∃ o ∈ v :: vs, o.idx ≠ top.idx := by
        cases vs with
        | nil => simp at h2
        | cons b rest =>
          have hab : v.idx ≠ b.idx := by
            simp only [List.map_cons, List.nodup_cons] at hvnodup
            intro hh
            exact hvnodup.1 (by rw [hh]; exact List.mem_cons_self _ _)
          by_cases hv0 : v.idx = top.idx
          · refine ⟨b, by simp, ?_⟩
            rw [← hv0]
            exact fun hh => hab hh.symm
          · exact ⟨v, by simp, hv0⟩
      cases ho : (v :: vs).filter (fun o => o.idx ≠ top.idx) with
      | nil =>
        exfalso
        obtain ⟨o, hom, hone⟩ := hex
        have hmemf : o ∈ (v :: vs).filter (fun o => o.idx ≠ top.idx) :=
          List.mem_filter.mpr ⟨hom, by simp [hone]⟩
        rw [ho] at hmemf
        simp at hmemf
      | cons w ws =>
        have hsecmem' : ws.foldl maxStep w
            ∈ (v :: vs).filter (fun o => o.idx ≠ top.idx) := by
          rw [ho]
          exact foldl_maxStep_mem ws w
        have hsecvalid : ws.foldl maxStep w ∈ v :: vs :=
          (List.mem_filter.mp hsecmem').1
        have hd : (ws.foldl maxStep w).totalScore ≤ top.totalScore :=
          hmax _ hsecvalid
        have hcalc : calculateConfidence top (v :: vs)
            = min (1/2 + (top.totalScore
                - (ws.foldl maxStep w).totalScore) / 10) 1 := by
          unfold calculateConfidence
          rw [if_neg hlen, ho]
        have hbounds : 1/2 ≤ calculateConfidence top (v :: vs) ∧
            calculateConfidence top (v :: vs) ≤ 1 := by
          rw [hcalc]
          constructor
          · exact le_min (by linarith) (by norm_num)
          · exact min_le_right _ _
        refine ⟨?_, fun hsmall => absurd hsmall (by omega), fun _ => ?_⟩
        · intro q hq
          rw [hqeq q hq]
          exact hbounds
        · refine ⟨ws.foldl maxStep w, ?_, ?_, ?_⟩
          · exact foldl_maxStep_mem ws w
          · intro o hof
            exact foldl_maxStep_le ws w o hof
          · rw [hconf, hcalc]

/-- C4: a non-null recommendation carries a confidence value equal to
`min(0.5 + gap/10, 1)`, where `gap` is the total-score difference
between the choice and the best valid competitor; the confidence always
lies in `[0.5, 1]` and is exactly `1` when fewer than two options meet
the constraints. -/
theorem confidence_formula (rawOf : Opt → String → ℚ) (options : List Opt)
    (criteria : List String) (constraints : Constraints) (top : EvalOption)
    (h : (generateRecommendation
      (evaluateOptions rawOf options criteria constraints)).choice
        = some top) :
    (∀ q, (generateRecommendation
        (evaluateOptions rawOf options criteria constraints)).confidence
          = some q →
      1/2 ≤ q ∧ q ≤ 1) ∧
    (((evaluateOptions rawOf options criteria constraints).filter
        (fun o => o.meetsConstraints)).length < 2 →
      (generateRecommendation
        (evaluateOptions rawOf options criteria constraints)).confidence
          = some 1) ∧
    (2 ≤ ((evaluateOptions rawOf options criteria constraints).filter
        (fun o => o.meetsConstraints)).length →
      ∃ second ∈ ((evaluateOptions rawOf options criteria
            constraints).filter (fun o => o.meetsConstraints)).filter
          (fun o => o.idx ≠ top.idx),
        (∀ o ∈ ((evaluateOptions rawOf options criteria
              constraints).filter (fun o => o.meetsConstraints)).filter
            (fun o => o.idx ≠ top.idx),
          o.totalScore ≤ second.totalScore) ∧
        (generateRecommendation
          (evaluateOptions rawOf options criteria constraints)).confidence
            = some (min (1/2 + (top.totalScore - second.totalScore) / 10)
                1)) :=
  confidence_spec (evaluateOptions rawOf options criteria constraints) top
    (by
      have hmap : (evaluateOptions rawOf options criteria
          constraints).map (fun e => e.idx) = options.enum.map Prod.fst := by
        unfold evaluateOptions
        rw [List.map_map]
        rfl
      rw [hmap]
      exact List.nodup_enum_map_fst options) h

/-- Witness for C4 at the sample inputs: option B is chosen with one
valid competitor at gap `0.4`, so the confidence is
`min(0.5 + 0.4/10, 1) = 27/50`, inside the stated bounds. -/
theorem confidence_formula_witness :
    (generateRecommendation
      (evaluateOptions rawOf0 [optA, optB] crits0 cs0)).confidence
        = some (27/50) ∧
    (1/2 : ℚ) ≤ 27/50 ∧ (27/50 : ℚ) ≤ 1 := by
  refine ⟨by decide, ?_⟩
  exact (confidence_formula rawOf0 [optA, optB] crits0 cs0
    (evaluateOption rawOf0 optB crits0 cs0 1) (by decide)).1
      (27/50) (by decide)

/-! ### Trade-off analysis (C6) -/

theorem foldl_diffStep (A B : EvalOption) :
    ∀ (keys : List String) (a b : List String),
      keys.foldl (diffStep A B) (a, b)
        = (a ++ keys.filter (fun c =>
              decide (|rawAt A c - rawAt B c| > 1) &&
              decide (rawAt A c - rawAt B c > 0)),
           b ++ keys.filter (fun c =>
              decide (|rawAt A c - rawAt B c| > 1) &&
              !(decide (rawAt A c - rawAt B c > 0)))) := by
  intro keys
  induction keys with
  | nil => intro a b; simp
  | cons c cs ih =>
    intro a b
    simp only [List.foldl_cons, List.filter_cons]
    by_cases h1 : |rawAt A c - rawAt B c| > 1
    · by_cases h2 : rawAt A c - rawAt B c > 0
      · rw [show diffStep A B (a, b) c = (a ++ [c], b) from by
            unfold diffStep; rw [if_pos h1, if_pos h2]]
        rw [ih]
        simp [h1, h2]
      · rw [show diffStep A B (a, b) c = (a, b ++ [c]) from by
            unfold diffStep; rw [if_pos h1, if_neg h2]]
        rw [ih]
        simp [h1, h2]
    · rw [show diffStep A B (a, b) c = (a, b) from by
          unfold diffStep; rw [if_neg h1]]
      rw [ih]
      simp [h1]

theorem compareTwo_aStrengths (A B : EvalOption) :
    (compareTwo A B).aStrengths
      = (A.scores.map (fun p => p.1)).filter (fun c =>
          decide (|rawAt A c - rawAt B c| > 1) &&
          decide (rawAt A c - rawAt B c > 0)) := by
  show ((A.scores.map (fun p => p.1)).foldl (diffStep A B) ([], [])).1 = _
  rw [foldl_diffStep]
  simp

theorem compareTwo_bStrengths (A B : EvalOption) :
    (compareTwo A B).bStrengths
      = (A.scores.map (fun p => p.1)).filter (fun c =>
          decide (|rawAt A c - rawAt B c| > 1) &&
          !(decide (rawAt A c - rawAt B c > 0))) := by
  show ((A.scores.map (fun p => p.1)).foldl (diffStep A B) ([], [])).2 = _
  rw [foldl_diffStep]
  simp

theorem compareTwo_hasTradeoff (A B : EvalOption) :
    (compareTwo A B).hasTradeoff
      = (decide ((compareTwo A B).aStrengths.length > 0) &&
         decide ((compareTwo A B).bStrengths.length > 0)) := rfl

theorem mem_keys_iff_getKey (m : List (String × CritScore)) (c : String) :
    c ∈ m.map (fun p => p.1) ↔ (getKey m c).isSome := by
  unfold getKey
  have hsome : (Option.map (fun p => p.2)
      (List.find? (fun p => decide (p.1 = c)) m)).isSome
      = (List.find? (fun p => decide (p.1 = c)) m).isSome := by
    cases List.find? (fun p => decide (p.1 = c)) m <;> rfl
  rw [show ((Option.map (fun p => p.2)
      (List.find? (fun p => decide (p.1 = c)) m)).isSome = true)
      = ((List.find? (fun p => decide (p.1 = c)) m).isSome = true) from by
    rw [hsome]]
  rw [List.find?_isSome]
  constructor
  · intro hmem
    obtain ⟨p, hp, rfl⟩ := List.mem_map.mp hmem
    exact ⟨p, hp, by simp⟩
  · rintro ⟨p, hp, hpc⟩
    rw [List.mem_map]
    exact ⟨p, hp, (by simpa using hpc : p.1 = c)⟩

theorem keys_eval_iff (rawOf : Opt → String → ℚ) (option : Opt)
    (criteria : List String) (constraints : Constraints) (idx : ℕ)
    (c : String) :
    c ∈ (evaluateOption rawOf option criteria constraints idx).scores.map
      (fun p => p.1) ↔ c ∈ criteria := by
  rw [mem_keys_iff_getKey]
  have hscores : (evaluateOption rawOf option criteria constraints idx).scores
      = (criteria.foldl (evalStep rawOf option constraints) ([], 0)).1 := rfl
  rw [hscores, foldl_evalStep_getKey]
  by_cases hc : c ∈ criteria
  · simp [hc]
  · simp [hc, getKey]

theorem abs_gt_one_pos (d : ℚ) : (|d| > 1 ∧ d > 0) ↔ d > 1 := by
  constructor
  · rintro ⟨h1, h2⟩
    rwa [abs_of_pos h2] at h1
  · intro hd
    refine ⟨?_, by linarith⟩
    rwa [abs_of_pos (by linarith)]

theorem abs_gt_one_nonpos (d : ℚ) : (|d| > 1 ∧ ¬(d > 0)) ↔ -d > 1 := by
  constructor
  · rintro ⟨h1, h2⟩
    rwa [abs_of_nonpos (le_of_not_lt h2)] at h1
  · intro hd
    refine ⟨?_, by intro hpos; linarith⟩
    rwa [abs_of_nonpos (by linarith)]

theorem mem_analyzeTradeoffs_hasTradeoff (evaluated : List EvalOption) :
    ∀ t ∈ analyzeTradeoffs evaluated, t.hasTradeoff = true := by
  intro t ht
  unfold analyzeTradeoffs at ht
  rw [List.mem_flatMap] at ht
  obtain ⟨p, _, hinner⟩ := ht
  simpa using (List.mem_filter.mp hinner).2

theorem compareTwo_mem_analyzeTradeoffs (evaluated : List EvalOption)
    (i j : ℕ) (hi : i < evaluated.length) (hj : j < evaluated.length)
    (hij : i < j)
    (ht : (compareTwo (evaluated.get ⟨i, hi⟩)
      (evaluated.get ⟨j, hj⟩)).hasTradeoff = true) :
    compareTwo (evaluated.get ⟨i, hi⟩) (evaluated.get ⟨j, hj⟩)
      ∈ analyzeTradeoffs evaluated := by
  obtain ⟨k, rfl⟩ : ∃ k, j = i + 1 + k := ⟨j - (i + 1), by omega⟩
  unfold analyzeTradeoffs
  rw [List.mem_flatMap]
  refine ⟨(i, evaluated.get ⟨i, hi⟩), ?_, ?_⟩
  · have h1 : i < evaluated.enum.length := by
      rw [List.enum_length]
      exact hi
    have h2 : evaluated.enum.get ⟨i, h1⟩ = (i, evaluated.get ⟨i, hi⟩) := by
      simp [List.getElem_enum]
    rw [← h2]
    exact List.get_mem _ _ _
  · rw [List.mem_filter]
    refine ⟨?_, by simpa using ht⟩
    rw [List.mem_map]
    refine ⟨evaluated.get ⟨i + 1 + k, hj⟩, ?_, rfl⟩
    have hk' : k < (evaluated.drop (i + 1)).length := by
      rw [List.length_drop]
      omega
    have he : (evaluated.drop (i + 1)).get ⟨k, hk'⟩
        = evaluated.get ⟨i + 1 + k, hj⟩ := by
      simp [List.getElem_drop]
    rw [← he]
    exact List.get_mem _ _ _

/-- C6: for each ordered pair of positions `i < j` in the evaluated
list, `compareTwo` collects into `aStrengths`/`bStrengths` exactly the
criteria on which the respective option leads by strictly more than 1
raw point, and `analyzeTradeoffs` emits the pair's record iff each side
leads somewhere — regardless of `meetsConstraints`. -/
theorem tradeoff_pairs (rawOf : Opt → String → ℚ) (options : List Opt)
    (criteria : List String) (constraints : Constraints) (i j : ℕ)
    (hi : i < (evaluateOptions rawOf options criteria constraints).length)
    (hj : j < (evaluateOptions rawOf options criteria constraints).length)
    (hij : i < j) :
    (∀ c, c ∈ (compareTwo
        ((evaluateOptions rawOf options criteria constraints).get ⟨i, hi⟩)
        ((evaluateOptions rawOf options criteria constraints).get
          ⟨j, hj⟩)).aStrengths
      ↔ (c ∈ criteria ∧
          rawAt ((evaluateOptions rawOf options criteria
              constraints).get ⟨i, hi⟩) c
            - rawAt ((evaluateOptions rawOf options criteria
              constraints).get ⟨j, hj⟩) c > 1)) ∧
    (∀ c, c ∈ (compareTwo
        ((evaluateOptions rawOf options criteria constraints).get ⟨i, hi⟩)
        ((evaluateOptions rawOf options criteria constraints).get
          ⟨j, hj⟩)).bStrengths
      ↔ (c ∈ criteria ∧
          rawAt ((evaluateOptions rawOf options criteria
              constraints).get ⟨j, hj⟩) c
            - rawAt ((evaluateOptions rawOf options criteria
              constraints).get ⟨i, hi⟩) c > 1)) ∧
    (compareTwo
        ((evaluateOptions rawOf options criteria constraints).get ⟨i, hi⟩)
        ((evaluateOptions rawOf options criteria constraints).get ⟨j, hj⟩)
      ∈ analyzeTradeoffs (evaluateOptions rawOf options criteria constraints)
      ↔ ((∃ c ∈ criteria,
            rawAt ((evaluateOptions rawOf options criteria
                constraints).get ⟨i, hi⟩) c
              - rawAt ((evaluateOptions rawOf options criteria
                constraints).get ⟨j, hj⟩) c > 1) ∧
          (∃ c ∈ criteria,
            rawAt ((evaluateOptions rawOf options criteria
                constraints).get ⟨j, hj⟩) c
              - rawAt ((evaluateOptions rawOf options criteria
                constraints).get ⟨i, hi⟩) c > 1))) := by
  set ev := evaluateOptions rawOf options criteria constraints with hev
  set A := ev.get ⟨i, hi⟩ with hA
  set B := ev.get ⟨j, hj⟩ with hB
  have hkeys : ∀ c, c ∈ A.scores.map (fun p => p.1) ↔ c ∈ criteria := by
    intro c
    have hmem : A ∈ ev := List.get_mem _ _ _
    rw [hev] at hmem
    unfold evaluateOptions at hmem
    obtain ⟨p, _, hp2⟩ := List.mem_map.mp hmem
    rw [← hp2]
    exact keys_eval_iff rawOf p.2 criteria constraints p.1 c
  have hmemA : ∀ c, c ∈ (compareTwo A B).aStrengths
      ↔ (c ∈ criteria ∧ rawAt A c - rawAt B c > 1) := by
    intro c
    rw [compareTwo_aStrengths, List.mem_filter, hkeys]
    simp only [Bool.and_eq_true, decide_eq_true_eq]
    rw [abs_gt_one_pos]
  have hmemB : ∀ c, c ∈ (compareTwo A B).bStrengths
      ↔ (c ∈ criteria ∧ rawAt B c - rawAt A c > 1) := by
    intro c
    rw [compareTwo_bStrengths, List.mem_filter, hkeys]
    simp only [Bool.and_eq_true, Bool.not_eq_true', decide_eq_true_eq,
      decide_eq_false_iff_not]
    rw [abs_gt_one_nonpos, neg_sub]
  have hhas : (compareTwo A B).hasTradeoff = true
      ↔ ((∃ c ∈ criteria, rawAt A c - rawAt B c > 1) ∧
         (∃ c ∈ criteria, rawAt B c - rawAt A c > 1)) := by
    rw [compareTwo_hasTradeoff, Bool.and_eq_true, decide_eq_true_iff,
        decide_eq_true_iff]
    constructor
    · rintro ⟨ha, hb⟩
      obtain ⟨ca, hca⟩ := List.length_pos_iff_exists_mem.mp ha
      obtain ⟨cb, hcb⟩ := List.length_pos_iff_exists_mem.mp hb
      obtain ⟨hca1, hca2⟩ := (hmemA ca).mp hca
      obtain ⟨hcb1, hcb2⟩ := (hmemB cb).mp hcb
      exact ⟨⟨ca, hca1, hca2⟩, ⟨cb, hcb1, hcb2⟩⟩
    · rintro ⟨⟨ca, hca1, hca2⟩, ⟨cb, hcb1, hcb2⟩⟩
      constructor
      · exact List.length_pos_iff_exists_mem.mpr
          ⟨ca, (hmemA ca).mpr ⟨hca1, hca2⟩⟩
      · exact List.length_pos_iff_exists_mem.mpr
          ⟨cb, (hmemB cb).mpr ⟨hcb1, hcb2⟩⟩
  refine ⟨hmemA, hmemB, ?_⟩
  constructor
  · intro hin
    exact hhas.mp (mem_analyzeTradeoffs_hasTradeoff ev _ hin)
  · intro hcond
    exact compareTwo_mem_analyzeTradeoffs ev i j hi hj hij (hhas.mpr hcond)

/-- Witness for C6 at the sample inputs: A leads on performance by 2, B
leads on cost by 4, so the pair is reported as a trade-off. -/
theorem tradeoff_pairs_witness :
    compareTwo
        ((evaluateOptions rawOf0 [optA, optB] crits0 cs0).get ⟨0, by decide⟩)
        ((evaluateOptions rawOf0 [optA, optB] crits0 cs0).get ⟨1, by decide⟩)
      ∈ analyzeTradeoffs (evaluateOptions rawOf0 [optA, optB] crits0 cs0) :=
  ((tradeoff_pairs rawOf0 [optA, optB] crits0 cs0 0 1 (by decide) (by decide)
      (by decide)).2.2).mpr
    ⟨⟨"performance", by decide, by decide⟩, ⟨"cost", by decide, by decide⟩⟩

end RatKernel

end Referee
